import Mathlib

/-!
Verification of the tower-defense simulation core in `src/Game.tsx`.

The TypeScript source computes over IEEE doubles with `Math.sqrt`; here
positions, radii and hit points are modelled as exact rationals.  A source
comparison `Math.sqrt s < R` (with `s` a sum of squares, hence `0 ≤ s`) is
embedded as `0 < R ∧ s < R ^ 2`, which is equivalent over the reals — see
`TD.sqrtLt_iff` below — so every branch test of the source is reproduced
exactly, including the strict `<` comparisons for collisions and the strict
out-of-bounds test for bullets.  The numeric value of `Math.sqrt` is needed
only for the coordinates of a moved enemy and the direction components of a
fired bullet; those are parametrised by an oracle `sq : ℚ → ℚ` standing for
the square root, and any theorem that depends on its defining property takes
that property as an explicit hypothesis at the concrete value where it is
used.  `Math.random` (spawn edge and spawn coordinate of the k-th enemy of a
wave) is modelled by an oracle `rnd : Nat → Nat × ℚ`, and the `Date.now()`
based id counters by explicit `baseId` / `bid` arguments.
-/

namespace TD

/-- Source `interface EnemyData { type: string; count: number; }`. -/
structure EnemyData where
  type : String
  count : Nat
deriving DecidableEq, Repr

/-- Source `interface WaveData { wave: number; enemies: EnemyData[] }`. -/
structure WaveData where
  wave : Nat
  enemies : List EnemyData
deriving DecidableEq, Repr

/-- Source `interface Enemy { id; x; y; hp; type; radius }`. -/
structure Enemy where
  id : Nat
  x : ℚ
  y : ℚ
  hp : ℚ
  type : String
  radius : ℚ
deriving DecidableEq, Repr

/-- Source `interface Bullet { id; x; y; dx; dy; radius }`. -/
structure Bullet where
  id : Nat
  x : ℚ
  y : ℚ
  dx : ℚ
  dy : ℚ
  radius : ℚ
deriving DecidableEq, Repr

/-- One row of the `ENEMY_STATS` table: `{ hp, radius, speed }`. -/
structure Stats where
  hp : ℚ
  radius : ℚ
  speed : ℚ
deriving DecidableEq, Repr

/-- Source `gameState: 'playing' | 'gameover' | 'victory'`. -/
inductive GameState where
  | playing
  | gameover
  | victory
deriving DecidableEq, Repr

/-- The React state of the `Game` component that the simulation reads and
writes: `coreHp`, `waves`, `currentWave`, `enemies`, `bullets`, `gameState`. -/
structure State where
  coreHp : ℚ
  waves : List WaveData
  currentWave : Nat
  enemies : List Enemy
  bullets : List Bullet
  gameState : GameState
deriving DecidableEq, Repr

/-- Source `const ENEMY_STATS = { normal: {...}, fast: {...}, tank: {...} }` as a
lookup returning `none` for a key absent from the table. -/
def ENEMY_STATS (t : String) : Option Stats :=
  if t = "normal" then some { hp := 10, radius := 15, speed := 50 }
  else if t = "fast" then some { hp := 5, radius := 10, speed := 80 }
  else if t = "tank" then some { hp := 50, radius := 25, speed := 30 }
  else none

/-- Source `ENEMY_STATS[type] || ENEMY_STATS.normal` — lookup with fallback to the
`normal` profile. -/
def statsFor (t : String) : Stats :=
  (ENEMY_STATS t).getD { hp := 10, radius := 15, speed := 50 }

/-- Source `const coreRadius = 30`. -/
def coreRadius : ℚ := 30

/-- Source `const bulletSpeed = 350` (set each frame in the animation callback). -/
def bulletSpeed : ℚ := 350

/-- Squared euclidean distance; the source computes
`Math.sqrt(Math.pow(x1-x2,2) + Math.pow(y1-y2,2))` and only ever compares
the root against a positive radius sum or divides by it. -/
def distSq (x1 y1 x2 y2 : ℚ) : ℚ :=
  (x1 - x2) ^ 2 + (y1 - y2) ^ 2

/-- Distance-squared from an enemy to the core at `(cx, cy)`. -/
def enemyDistSq (cx cy : ℚ) (e : Enemy) : ℚ :=
  distSq e.x e.y cx cy

/-- Source `bullet.x += bullet.dx * bulletSpeed * delta; bullet.y += ...`. -/
def advanceBullet (delta : ℚ) (b : Bullet) : Bullet :=
  { b with x := b.x + b.dx * bulletSpeed * delta,
           y := b.y + b.dy * bulletSpeed * delta }

/-- Source `bullet.x < 0 || bullet.x > stageWidth || bullet.y < 0 || bullet.y > stageHeight`. -/
def oobB (W H : ℚ) (b : Bullet) : Bool :=
  decide (b.x < 0 ∨ b.x > W ∨ b.y < 0 ∨ b.y > H)

/-- Source `dist < enemy.radius + bullet.radius` with
`dist = Math.sqrt((bullet.x-enemy.x)^2 + (bullet.y-enemy.y)^2)`, embedded
per `sqrtLt_iff`. -/
def hitB (b : Bullet) (e : Enemy) : Bool :=
  decide (0 < e.radius + b.radius ∧
    distSq b.x b.y e.x e.y < (e.radius + b.radius) ^ 2)

/-- The advanced bullets of a frame (`updatedBullets` after the in-place
position update of the first forEach loop). -/
def movedBullets (delta : ℚ) (s : State) : List Bullet :=
  s.bullets.map (advanceBullet delta)

/-- A bullet enters the `bulletsToRemove` set iff its advanced position is
out of bounds or it overlaps some enemy (both marks happen in the same
forEach pass; the `Set` makes double marking idempotent). -/
def bulletRemovedB (W H : ℚ) (es : List Enemy) (b : Bullet) : Bool :=
  oobB W H b || es.any (fun e => hitB b e)

/-- The contents of the `bulletsToRemove : Set<number>` after the first loop. -/
def bulletsToRemove (W H delta : ℚ) (s : State) : List Nat :=
  ((movedBullets delta s).filter (bulletRemovedB W H s.enemies)).map Bullet.id

/-- Commit `setBullets(prev => prev.filter(b => !bulletsToRemove.has(b.id)))`; the
objects in `prev` are the same (mutated, advanced) bullet objects. -/
def keptBullets (W H delta : ℚ) (s : State) : List Bullet :=
  (movedBullets delta s).filter (fun b => !(bulletsToRemove W H delta s).contains b.id)

/-- The value `enemiesToDamage.get(eid) ?? 0` after the first loop: each
(bullet, enemy) overlap adds 10 to the entry keyed by the enemy id
(`// 10 damage per bullet`).  When no pair was recorded the map has no
entry and the enemy's hp is untouched, which equals subtracting 0. -/
def damageTo (mb : List Bullet) (es : List Enemy) (eid : Nat) : ℚ :=
  10 * (((mb.map (fun b => (es.filter (fun e => e.id == eid && hitB b e)).length)).sum : ℕ) : ℚ)

/-- Number of advanced bullets overlapping enemy `e`. -/
def hitCount (mb : List Bullet) (e : Enemy) : Nat :=
  (mb.filter (fun b => hitB b e)).length

/-- The body of the second forEach loop for one enemy, given the damage
`dmg` accumulated against its id.  Result: the enemy object after the
in-place mutation, whether its id was added to `enemiesToRemove`, and the
amount subtracted from `newCoreHp` (`10` on a core hit, else `0`).
Branches, in source order: apply damage; cull on `hp <= 0`; core collision
`distToCore < coreRadius + enemy.radius` (embedded per `sqrtLt_iff`);
otherwise move toward the core dividing by `distToCore = sq` applied to the
squared distance. -/
def enemyFrame (W H : ℚ) (sq : ℚ → ℚ) (delta dmg : ℚ) (e : Enemy) : Enemy × Bool × ℚ :=
  let hp2 := e.hp - dmg
  if hp2 ≤ 0 then ({ e with hp := hp2 }, true, 0)
  else
    let s2 := distSq e.x e.y (W / 2) (H / 2)
    if 0 < coreRadius + e.radius ∧ s2 < (coreRadius + e.radius) ^ 2 then
      ({ e with hp := hp2 }, true, 10)
    else
      let st := statsFor e.type
      let d := sq s2
      ({ e with hp := hp2,
                x := e.x + (W / 2 - e.x) / d * st.speed * delta,
                y := e.y + (H / 2 - e.y) / d * st.speed * delta }, false, 0)

/-- The per-enemy results of the second forEach loop, in order. -/
def steppedEnemies (W H : ℚ) (sq : ℚ → ℚ) (delta : ℚ) (s : State) :
    List (Enemy × Bool × ℚ) :=
  s.enemies.map (fun e =>
    enemyFrame W H sq delta (damageTo (movedBullets delta s) s.enemies e.id) e)

/-- The contents of the `enemiesToRemove : Set<number>` after the second loop. -/
def enemiesToRemove (W H : ℚ) (sq : ℚ → ℚ) (delta : ℚ) (s : State) : List Nat :=
  ((steppedEnemies W H sq delta s).filter (fun p => p.2.1)).map (fun p => p.1.id)

/-- Commit `setEnemies(prev => prev.filter(e => !enemiesToRemove.has(e.id)))`; the
objects in `prev` are the same (mutated) enemy objects. -/
def keptEnemies (W H : ℚ) (sq : ℚ → ℚ) (delta : ℚ) (s : State) : List Enemy :=
  ((steppedEnemies W H sq delta s).map (fun p => p.1)).filter
    (fun e => !(enemiesToRemove W H sq delta s).contains e.id)

/-- Value of `newCoreHp` after the second loop: `coreHp` minus 10 per core hit. -/
def frameCoreHp (W H : ℚ) (sq : ℚ → ℚ) (delta : ℚ) (s : State) : ℚ :=
  s.coreHp - ((steppedEnemies W H sq delta s).map (fun p => p.2.2)).sum

/-- The `// Update states` block: commit filtered bullets, filtered enemies
and `newCoreHp` (committing an unchanged `coreHp` is a no-op, so the guard
`newCoreHp !== coreHp` needs no separate case). -/
def frameCommit (W H : ℚ) (sq : ℚ → ℚ) (delta : ℚ) (s : State) : State :=
  { s with bullets := keptBullets W H delta s,
           enemies := keptEnemies W H sq delta s,
           coreHp := frameCoreHp W H sq delta s }

/-- Helper `mkEnemy` builds the k-th enemy spawned by a wave, of kind `t`:
`side = Math.floor(Math.random()*4)` and the edge coordinate
`Math.random()*stageWidth` (resp. `*stageHeight`) are the oracle values
`rnd k = (side, r)`; the id counter `Date.now() + k` is `baseId + k`. -/
def mkEnemy (W H : ℚ) (rnd : Nat → Nat × ℚ) (baseId k : Nat) (t : String) : Enemy :=
  let st := statsFor t
  let side := (rnd k).1
  let r := (rnd k).2
  if side = 0 then ⟨baseId + k, r * W, -st.radius, st.hp, t, st.radius⟩
  else if side = 1 then ⟨baseId + k, W + st.radius, r * H, st.hp, t, st.radius⟩
  else if side = 2 then ⟨baseId + k, r * W, H + st.radius, st.hp, t, st.radius⟩
  else ⟨baseId + k, -st.radius, r * H, st.hp, t, st.radius⟩

/-- The `newEnemies` array built by `spawnWave`'s nested loops; `k` is the
running spawn index (offset of the id counter and of the oracle). -/
def buildEnemies (W H : ℚ) (rnd : Nat → Nat × ℚ) (baseId : Nat) :
    List EnemyData → Nat → List Enemy
  | [], _ => []
  | g :: rest, k =>
      (List.range g.count).map (fun i => mkEnemy W H rnd baseId (k + i) g.type)
        ++ buildEnemies W H rnd baseId rest (k + g.count)

/-- Source `spawnWave(waveNumber)`: look the wave up by its `wave` field; on a miss
set `gameState = 'victory'` and return; on a hit replace the enemy set with
the freshly built enemies and set `currentWave = waveNumber`. -/
def spawnWave (W H : ℚ) (rnd : Nat → Nat × ℚ) (baseId : Nat)
    (s : State) (waveNumber : Nat) : State :=
  match s.waves.find? (fun w => w.wave == waveNumber) with
  | none => { s with gameState := GameState.victory }
  | some waveData =>
      { s with enemies := buildEnemies W H rnd baseId waveData.enemies 0,
               currentWave := waveNumber }

/-- The body of the `Konva.Animation` frame callback: advance bullets and
mark removals, step every enemy, commit the filtered sets and `newCoreHp`,
then the end-of-frame check — `gameover` if `newCoreHp <= 0`, else advance
to wave `currentWave + 1` if the surviving enemy set is empty and the
catalog is loaded. -/
def frameStep (W H : ℚ) (sq : ℚ → ℚ) (rnd : Nat → Nat × ℚ) (baseId : Nat)
    (s : State) (delta : ℚ) : State :=
  let s1 := frameCommit W H sq delta s
  if frameCoreHp W H sq delta s ≤ 0 then
    { s1 with gameState := GameState.gameover }
  else if (keptEnemies W H sq delta s).length = 0 ∧ 0 < s.waves.length then
    spawnWave W H rnd baseId s1 (s.currentWave + 1)
  else s1

/-- One animation frame as scheduled by the main-loop effect: the effect
body starts the animation only while `gameState === 'playing'`, so in a
terminal state no frame runs and the state is untouched. -/
def tick (W H : ℚ) (sq : ℚ → ℚ) (rnd : Nat → Nat × ℚ) (baseId : Nat)
    (s : State) (delta : ℚ) : State :=
  if s.gameState = GameState.playing then frameStep W H sq rnd baseId s delta else s

/-- The targeting fold of the auto-fire interval: starting from
`minDistance = Infinity` (so the first enemy always wins the first
comparison) keep the strictly nearer enemy.  Comparing the source's
`Math.sqrt` distances is equivalent to comparing the squared distances
since the root is strictly monotone on nonnegatives. -/
def nearestGo (cx cy : ℚ) : Enemy → List Enemy → Enemy
  | best, [] => best
  | best, e :: rest =>
      if enemyDistSq cx cy e < enemyDistSq cx cy best
      then nearestGo cx cy e rest
      else nearestGo cx cy best rest

/-- Value of `nearestEnemy` after the forEach scan: `none` iff the enemy list is empty. -/
def nearestEnemy (cx cy : ℚ) : List Enemy → Option Enemy
  | [] => none
  | e :: rest => some (nearestGo cx cy e rest)

/-- The bullet built by the auto-fire callback for target `tgt`:
origin `(coreX, coreY)`, direction `(tgt - core) / d` with
`d = Math.sqrt` of the squared distance (oracle `sq`), radius 5. -/
def fireBullet (W H : ℚ) (sq : ℚ → ℚ) (bid : Nat) (tgt : Enemy) : Bullet :=
  let d := sq (enemyDistSq (W / 2) (H / 2) tgt)
  ⟨bid, W / 2, H / 2, (tgt.x - W / 2) / d, (tgt.y - H / 2) / d, 5⟩

/-- One tick of the auto-fire `setInterval`: the effect installs the
interval only while `gameState === 'playing'`; the tick returns early on an
empty enemy list, otherwise appends exactly one bullet aimed at the nearest
enemy (`setBullets(prev => [...prev, newBullet])`). -/
def fireStep (W H : ℚ) (sq : ℚ → ℚ) (bid : Nat) (s : State) : State :=
  if s.gameState ≠ GameState.playing then s
  else if s.enemies.length = 0 then s
  else
    match nearestEnemy (W / 2) (H / 2) s.enemies with
    | none => s
    | some tgt => { s with bullets := s.bullets ++ [fireBullet W H sq bid tgt] }

/-! ### Concrete states used to exercise the theorems on closed inputs -/

/-- A square-root oracle used where the root's value is irrelevant. -/
def sq0 : ℚ → ℚ := fun _ => 1

/-- A randomness oracle: every spawn uses edge 0 and coordinate 0. -/
def rnd0 : Nat → Nat × ℚ := fun _ => (0, 0)

/-- An enemy with 20 hp sitting 40 above the core of a 100×100 stage. -/
def c1enemy : Enemy := ⟨1, 50, 10, 20, "normal", 15⟩

/-- A bullet overlapping `c1enemy` (distance 2 < 15 + 5). -/
def c1bullet : Bullet := ⟨10, 50, 12, 0, 0, 5⟩

/-- Three bullets overlap `c1enemy` simultaneously; 3 × 10 ≥ 20 hp. -/
def c1state : State :=
  ⟨100, [], 1, [c1enemy], [c1bullet, { c1bullet with id := 11 }, { c1bullet with id := 12 }],
    GameState.playing⟩

/-- An enemy sitting exactly at the core's center of a 100×100 stage. -/
def c2enemy : Enemy := ⟨1, 50, 50, 5, "normal", 15⟩

/-- A terminal (victory) state with live entities that must stay frozen. -/
def c3state : State :=
  ⟨100, [], 1, [⟨1, 5, 5, 10, "normal", 15⟩], [⟨7, 50, 50, 1, 0, 5⟩], GameState.victory⟩

/-- A catalog holding only wave 1, so wave 3 is absent. -/
def c4state : State := ⟨100, [⟨1, [⟨"normal", 1⟩]⟩], 1, [], [], GameState.playing⟩

/-- An enemy at the core's center of a 100×100 stage. -/
def c5enemy : Enemy := ⟨1, 50, 50, 5, "normal", 15⟩

/-- The core has 10 hp; the one enemy reaches it this frame, depleting it. -/
def c5state : State := ⟨10, [], 1, [c5enemy], [], GameState.playing⟩

/-- A wave with 2 + 1 enemies, one group with an unknown kind tag. -/
def c6wave : WaveData := ⟨2, [⟨"fast", 2⟩, ⟨"boss", 1⟩]⟩

/-- A state whose catalog holds `c6wave`. -/
def c6state : State := ⟨100, [c6wave], 1, [], [], GameState.playing⟩

/-- An enemy at distance 5 (squared distance 25) from the core. -/
def c7enemy : Enemy := ⟨1, 53, 54, 5, "fast", 10⟩

/-- A playing state with `c7enemy` as the only target. -/
def c7state : State := ⟨100, [], 1, [c7enemy], [], GameState.playing⟩

/-- A square-root oracle correct at the squared distance 25. -/
def c7sq : ℚ → ℚ := fun q => if q = 25 then 5 else 0

/-- A bullet already past the right edge of a 100×100 stage. -/
def c8out : Bullet := ⟨20, 150, 50, 0, 0, 5⟩

/-- A bullet inside the stage, away from every enemy. -/
def c8in : Bullet := ⟨21, 50, 50, 0, 0, 5⟩

/-- No enemies, one out-of-bounds bullet and one surviving bullet. -/
def c8state : State := ⟨100, [], 1, [], [c8out, c8in], GameState.playing⟩

/-- A playing state on wave 1 of a 2-wave catalog with no enemies left. -/
def c9state : State :=
  ⟨100, [⟨1, [⟨"normal", 1⟩]⟩, ⟨2, [⟨"fast", 1⟩]⟩], 1, [], [], GameState.playing⟩

/-- An enemy 45 left of the edge-adjacent core, radius 15: squared distance
to the core is 2025 = (30 + 15)^2, just outside core-collision range. -/
def c10enemy : Enemy := ⟨2, 95, 50, 25, "tank", 15⟩

/-- A bullet whose position (105, 50) is out of bounds on a 100×100 stage
yet within 20 of `c10enemy` at (95, 50). -/
def c10bullet : Bullet := ⟨20, 105, 50, 0, 0, 5⟩

/-- The frame state exhibiting an out-of-bounds bullet that still hits. -/
def c10state : State := ⟨100, [], 1, [c10enemy], [c10bullet], GameState.playing⟩

/-- The square root of 2025. -/
def c10sq : ℚ → ℚ := fun _ => 45

/-! ### Embedding justification -/

/-- Justification for the embedding of comparisons: `Math.sqrt s < R` over
the reals is exactly `0 < R ∧ s < R ^ 2` (for the nonnegative `s` produced
by sums of squares; in fact for every rational `s`). -/
theorem sqrtLt_iff (s R : ℚ) :
    (0 < R ∧ s < R ^ 2) ↔ Real.sqrt s < R := by
  constructor
  · rintro ⟨hR, hlt⟩
    have hR' : (0 : ℝ) < (R : ℚ) := by exact_mod_cast hR
    rw [Real.sqrt_lt' hR']
    exact_mod_cast hlt
  · intro h
    have hs' : (0 : ℝ) ≤ Real.sqrt s := Real.sqrt_nonneg _
    have hR' : (0 : ℝ) < (R : ℚ) := lt_of_le_of_lt hs' h
    have hR : (0 : ℚ) < R := by exact_mod_cast hR'
    refine ⟨hR, ?_⟩
    have := (Real.sqrt_lt' hR').mp h
    exact_mod_cast this

/-! ### Bookkeeping lemmas -/

theorem spawnWave_bullets (W H : ℚ) (rnd : Nat → Nat × ℚ) (baseId : Nat)
    (s : State) (n : Nat) : (spawnWave W H rnd baseId s n).bullets = s.bullets := by
  unfold spawnWave
  cases s.waves.find? (fun w => w.wave == n) <;> rfl

theorem spawnWave_coreHp (W H : ℚ) (rnd : Nat → Nat × ℚ) (baseId : Nat)
    (s : State) (n : Nat) : (spawnWave W H rnd baseId s n).coreHp = s.coreHp := by
  unfold spawnWave
  cases s.waves.find? (fun w => w.wave == n) <;> rfl

theorem spawnWave_gameState_of_found (W H : ℚ) (rnd : Nat → Nat × ℚ) (baseId : Nat)
    (s : State) (n : Nat) (wd : WaveData)
    (h : s.waves.find? (fun w => w.wave == n) = some wd) :
    (spawnWave W H rnd baseId s n).gameState = s.gameState := by
  unfold spawnWave
  rw [h]

theorem frameStep_bullets (W H : ℚ) (sq : ℚ → ℚ) (rnd : Nat → Nat × ℚ) (baseId : Nat)
    (s : State) (delta : ℚ) :
    (frameStep W H sq rnd baseId s delta).bullets = keptBullets W H delta s := by
  unfold frameStep
  split
  · rfl
  · split
    · rw [spawnWave_bullets]
      rfl
    · rfl

theorem frameStep_coreHp (W H : ℚ) (sq : ℚ → ℚ) (rnd : Nat → Nat × ℚ) (baseId : Nat)
    (s : State) (delta : ℚ) :
    (frameStep W H sq rnd baseId s delta).coreHp = frameCoreHp W H sq delta s := by
  unfold frameStep
  split
  · rfl
  · split
    · rw [spawnWave_coreHp]
      rfl
    · rfl

theorem enemyFrame_id (W H : ℚ) (sq : ℚ → ℚ) (delta dmg : ℚ) (e : Enemy) :
    (enemyFrame W H sq delta dmg e).1.id = e.id := by
  unfold enemyFrame
  dsimp only
  split
  · rfl
  · split <;> rfl

theorem enemyFrame_dead (W H : ℚ) (sq : ℚ → ℚ) (delta dmg : ℚ) (e : Enemy)
    (h : e.hp - dmg ≤ 0) :
    enemyFrame W H sq delta dmg e = ({ e with hp := e.hp - dmg }, true, 0) := by
  unfold enemyFrame
  simp [h]

theorem enemyFrame_coreDmg_cases (W H : ℚ) (sq : ℚ → ℚ) (delta dmg : ℚ) (e : Enemy) :
    (enemyFrame W H sq delta dmg e).2.2 = 0 ∨ (enemyFrame W H sq delta dmg e).2.2 = 10 := by
  unfold enemyFrame
  dsimp only
  split
  · exact Or.inl rfl
  · split
    · exact Or.inr rfl
    · exact Or.inl rfl

theorem sum_of_zero_or_ten (l : List ℚ) (h : ∀ x ∈ l, x = 0 ∨ x = 10) :
    ∃ k : ℕ, l.sum = 10 * k := by
  induction l with
  | nil => exact ⟨0, by simp⟩
  | cons a t ih =>
    obtain ⟨k, hk⟩ := ih (fun x hx => h x (List.mem_cons_of_mem a hx))
    rcases h a (List.mem_cons_self a t) with ha | ha
    · exact ⟨k, by simp [ha, hk]⟩
    · refine ⟨k + 1, ?_⟩
      push_cast
      rw [List.sum_cons, ha, hk]
      ring

theorem filter_id_unique (es : List Enemy) (e : Enemy) (p : Enemy → Bool)
    (hnd : (es.map Enemy.id).Nodup) (he : e ∈ es) :
    (es.filter (fun x => x.id == e.id && p x)).length = if p e then 1 else 0 := by
  induction es with
  | nil => cases he
  | cons a t ih =>
    rw [List.map_cons, List.nodup_cons] at hnd
    rcases List.mem_cons.mp he with rfl | het
    · have hzero : (t.filter (fun x => x.id == e.id && p x)).length = 0 := by
        rw [List.length_eq_zero, List.filter_eq_nil_iff]
        intro x hx
        have hne : x.id ≠ e.id := by
          intro hid
          exact hnd.1 (hid ▸ List.mem_map_of_mem Enemy.id hx)
        simp [hne]
      cases hp : p e with
      | true => simp [List.filter_cons, hp, hzero]
      | false => simp [List.filter_cons, hp, hzero]
    · have hne : a.id ≠ e.id := by
        intro hid
        exact hnd.1 (hid ▸ List.mem_map_of_mem Enemy.id het)
      have hcond : (a.id == e.id && p a) = false := by
        simp [hne]
      rw [List.filter_cons, hcond]
      simp only [Bool.false_eq_true, if_false]
      exact ih hnd.2 het

theorem sum_map_boole (mb : List Bullet) (q : Bullet → Bool) :
    (mb.map (fun b => if q b then 1 else 0)).sum = (mb.filter q).length := by
  induction mb with
  | nil => rfl
  | cons b t ih =>
    by_cases hb : q b
    · simp [List.filter_cons, hb, ih, Nat.add_comm]
    · simp [List.filter_cons, hb, ih]

theorem damageTo_eq_hitCount (mb : List Bullet) (es : List Enemy) (e : Enemy)
    (hnd : (es.map Enemy.id).Nodup) (he : e ∈ es) :
    damageTo mb es e.id = 10 * (hitCount mb e : ℚ) := by
  unfold damageTo hitCount
  congr 2
  have hmap : mb.map (fun b => (es.filter (fun x => x.id == e.id && hitB b x)).length)
      = mb.map (fun b => if hitB b e then 1 else 0) := by
    apply List.map_congr_left
    intro b _
    exact filter_id_unique es e (fun x => hitB b x) hnd he
  rw [hmap, sum_map_boole]

theorem mem_bulletsToRemove (W H delta : ℚ) (s : State) (b : Bullet)
    (hb : b ∈ movedBullets delta s) (hrem : bulletRemovedB W H s.enemies b = true) :
    b.id ∈ bulletsToRemove W H delta s := by
  unfold bulletsToRemove
  exact List.mem_map_of_mem Bullet.id (List.mem_filter.mpr ⟨hb, hrem⟩)

theorem keptBullets_avoid (W H delta : ℚ) (s : State) (i : Nat)
    (hi : i ∈ bulletsToRemove W H delta s) :
    ∀ b' ∈ keptBullets W H delta s, b'.id ≠ i := by
  intro b' hb' hid
  unfold keptBullets at hb'
  obtain ⟨hmem, hcond⟩ := List.mem_filter.mp hb'
  rw [Bool.not_eq_true'] at hcond
  rw [hid] at hcond
  have hc2 : (bulletsToRemove W H delta s).contains i = true := List.elem_eq_true_of_mem hi
  rw [hcond] at hc2
  exact Bool.noConfusion hc2

theorem mem_enemiesToRemove (W H : ℚ) (sq : ℚ → ℚ) (delta : ℚ) (s : State) (e : Enemy)
    (he : e ∈ s.enemies)
    (hflag : (enemyFrame W H sq delta (damageTo (movedBullets delta s) s.enemies e.id) e).2.1 = true) :
    e.id ∈ enemiesToRemove W H sq delta s := by
  unfold enemiesToRemove
  have hmem : enemyFrame W H sq delta (damageTo (movedBullets delta s) s.enemies e.id) e
      ∈ steppedEnemies W H sq delta s := by
    exact List.mem_map_of_mem _ he
  have hfil : enemyFrame W H sq delta (damageTo (movedBullets delta s) s.enemies e.id) e
      ∈ (steppedEnemies W H sq delta s).filter (fun p => p.2.1) := by
    rw [List.mem_filter]
    exact ⟨hmem, hflag⟩
  have hmap := List.mem_map_of_mem (fun p => p.1.id) hfil
  simp only at hmap
  rwa [enemyFrame_id] at hmap

theorem keptEnemies_avoid (W H : ℚ) (sq : ℚ → ℚ) (delta : ℚ) (s : State) (i : Nat)
    (hi : i ∈ enemiesToRemove W H sq delta s) :
    ∀ e' ∈ keptEnemies W H sq delta s, e'.id ≠ i := by
  intro e' he' hid
  unfold keptEnemies at he'
  obtain ⟨hmem, hcond⟩ := List.mem_filter.mp he'
  rw [Bool.not_eq_true'] at hcond
  rw [hid] at hcond
  have hc2 : (enemiesToRemove W H sq delta s).contains i = true := List.elem_eq_true_of_mem hi
  rw [hcond] at hc2
  exact Bool.noConfusion hc2

/-! ### Stat table and spawn lemmas -/

theorem statsFor_radius_pos (t : String) : 0 < (statsFor t).radius := by
  unfold statsFor ENEMY_STATS
  split_ifs <;> norm_num [Option.getD]

theorem statsFor_of_missing (t : String) (h : ENEMY_STATS t = none) :
    statsFor t = { hp := 10, radius := 15, speed := 50 } := by
  unfold statsFor
  rw [h]
  rfl

theorem mkEnemy_spec (W H : ℚ) (rnd : Nat → Nat × ℚ) (baseId k : Nat) (t : String) :
    (mkEnemy W H rnd baseId k t).type = t
    ∧ (mkEnemy W H rnd baseId k t).hp = (statsFor t).hp
    ∧ (mkEnemy W H rnd baseId k t).radius = (statsFor t).radius
    ∧ ((mkEnemy W H rnd baseId k t).y = -(statsFor t).radius
       ∨ (mkEnemy W H rnd baseId k t).x = W + (statsFor t).radius
       ∨ (mkEnemy W H rnd baseId k t).y = H + (statsFor t).radius
       ∨ (mkEnemy W H rnd baseId k t).x = -(statsFor t).radius)
    ∧ ((mkEnemy W H rnd baseId k t).x < 0 ∨ (mkEnemy W H rnd baseId k t).x > W
       ∨ (mkEnemy W H rnd baseId k t).y < 0 ∨ (mkEnemy W H rnd baseId k t).y > H) := by
  have hr := statsFor_radius_pos t
  unfold mkEnemy
  dsimp only
  split_ifs
  · exact ⟨rfl, rfl, rfl, Or.inl rfl, Or.inr (Or.inr (Or.inl (by simpa using hr)))⟩
  · exact ⟨rfl, rfl, rfl, Or.inr (Or.inl rfl), Or.inr (Or.inl (by simpa using hr))⟩
  · exact ⟨rfl, rfl, rfl, Or.inr (Or.inr (Or.inl rfl)),
      Or.inr (Or.inr (Or.inr (by simpa using hr)))⟩
  · exact ⟨rfl, rfl, rfl, Or.inr (Or.inr (Or.inr rfl)), Or.inl (by simpa using hr)⟩

theorem buildEnemies_length (W H : ℚ) (rnd : Nat → Nat × ℚ) (baseId : Nat)
    (groups : List EnemyData) (k : Nat) :
    (buildEnemies W H rnd baseId groups k).length = (groups.map EnemyData.count).sum := by
  induction groups generalizing k with
  | nil => rfl
  | cons g rest ih => simp [buildEnemies, ih]

theorem buildEnemies_mem (W H : ℚ) (rnd : Nat → Nat × ℚ) (baseId : Nat)
    (groups : List EnemyData) (k : Nat) (e : Enemy)
    (he : e ∈ buildEnemies W H rnd baseId groups k) :
    ∃ g ∈ groups, ∃ j : Nat, e = mkEnemy W H rnd baseId j g.type := by
  induction groups generalizing k with
  | nil => cases he
  | cons g rest ih =>
    rcases List.mem_append.mp he with h1 | h2
    · obtain ⟨i, _, hie⟩ := List.mem_map.mp h1
      exact ⟨g, List.mem_cons_self g rest, k + i, hie.symm⟩
    · obtain ⟨g', hg', j, hj⟩ := ih (k + g.count) h2
      exact ⟨g', List.mem_cons_of_mem g hg', j, hj⟩

/-! ### Nearest-enemy scan lemmas -/

theorem nearestGo_mem (cx cy : ℚ) (b : Enemy) (l : List Enemy) :
    nearestGo cx cy b l ∈ b :: l := by
  induction l generalizing b with
  | nil => exact List.mem_cons_self b []
  | cons e rest ih =>
    simp only [nearestGo]
    split_ifs
    · exact List.mem_cons_of_mem b (ih e)
    · rcases List.mem_cons.mp (ih b) with h | h
      · rw [h]
        exact List.mem_cons_self _ _
      · exact List.mem_cons_of_mem _ (List.mem_cons_of_mem _ h)

theorem nearestGo_le (cx cy : ℚ) (b : Enemy) (l : List Enemy) :
    ∀ x ∈ b :: l, enemyDistSq cx cy (nearestGo cx cy b l) ≤ enemyDistSq cx cy x := by
  induction l generalizing b with
  | nil =>
    intro x hx
    rcases List.mem_cons.mp hx with rfl | h
    · simp [nearestGo]
    · cases h
  | cons e rest ih =>
    intro x hx
    simp only [nearestGo]
    split_ifs with h
    · rcases List.mem_cons.mp hx with rfl | hx'
      · exact le_of_lt (lt_of_le_of_lt (ih e e (List.mem_cons_self e rest)) h)
      · exact ih e x hx'
    · rcases List.mem_cons.mp hx with rfl | hx'
      · exact ih _ _ (List.mem_cons_self _ _)
      · rcases List.mem_cons.mp hx' with rfl | hx''
        · exact le_trans (ih b b (List.mem_cons_self b rest)) (not_lt.mp h)
        · exact ih b x (List.mem_cons_of_mem b hx'')

theorem nearestGo_first (cx cy : ℚ) (b : Enemy) (l : List Enemy) :
    ∃ l1 l2, b :: l = l1 ++ nearestGo cx cy b l :: l2 ∧
      ∀ x ∈ l1, enemyDistSq cx cy (nearestGo cx cy b l) < enemyDistSq cx cy x := by
  induction l generalizing b with
  | nil => exact ⟨[], [], by simp [nearestGo], by simp⟩
  | cons e rest ih =>
    simp only [nearestGo]
    split_ifs with h
    · obtain ⟨l1, l2, heq, hlt⟩ := ih e
      refine ⟨b :: l1, l2, by rw [List.cons_append, ← heq], ?_⟩
      intro x hx
      rcases List.mem_cons.mp hx with rfl | hx'
      · exact lt_of_le_of_lt (nearestGo_le cx cy e rest e (List.mem_cons_self e rest)) h
      · exact hlt x hx'
    · obtain ⟨l1, l2, heq, hlt⟩ := ih b
      cases l1 with
      | nil =>
        simp only [List.nil_append] at heq
        injection heq with h1 h2
        refine ⟨[], e :: rest, ?_, by simp⟩
        rw [← h1]
        rfl
      | cons a t =>
        rw [List.cons_append] at heq
        injection heq with h1 h2
        refine ⟨b :: e :: t, l2, ?_, ?_⟩
        · rw [List.cons_append, List.cons_append, ← h2]
        · have hngb : enemyDistSq cx cy (nearestGo cx cy b rest) < enemyDistSq cx cy b := by
            have := hlt a (List.mem_cons_self a t)
            rwa [← h1] at this
          intro x hx
          rcases List.mem_cons.mp hx with rfl | hx'
          · exact hngb
          · rcases List.mem_cons.mp hx' with rfl | hx''
            · exact lt_of_lt_of_le hngb (not_lt.mp h)
            · exact hlt x (List.mem_cons_of_mem a hx'')

theorem nearestEnemy_spec (cx cy : ℚ) (es : List Enemy) (tgt : Enemy)
    (h : nearestEnemy cx cy es = some tgt) :
    tgt ∈ es ∧ (∀ x ∈ es, enemyDistSq cx cy tgt ≤ enemyDistSq cx cy x)
    ∧ ∃ l1 l2, es = l1 ++ tgt :: l2 ∧
        ∀ x ∈ l1, enemyDistSq cx cy tgt < enemyDistSq cx cy x := by
  cases es with
  | nil => cases h
  | cons b l =>
    simp only [nearestEnemy, Option.some.injEq] at h
    subst h
    exact ⟨nearestGo_mem cx cy b l, nearestGo_le cx cy b l, nearestGo_first cx cy b l⟩

/-! ### Claim theorems -/

/-- C4: calling `spawnWave n` when no catalog record has wave number `n`
sets the game state to victory, spawns nothing, and leaves the enemy set
and the current wave number unchanged; afterwards neither a frame tick nor
a fire tick changes the state, so no further wave is ever attempted. -/
theorem spawnWave_miss_victory (W H : ℚ) (sq : ℚ → ℚ) (rnd : Nat → Nat × ℚ)
    (baseId bid : Nat) (s : State) (n : Nat)
    (h : s.waves.find? (fun w => w.wave == n) = none) :
    spawnWave W H rnd baseId s n = { s with gameState := GameState.victory }
    ∧ (spawnWave W H rnd baseId s n).enemies = s.enemies
    ∧ (spawnWave W H rnd baseId s n).currentWave = s.currentWave
    ∧ (∀ delta, tick W H sq rnd baseId (spawnWave W H rnd baseId s n) delta
        = spawnWave W H rnd baseId s n)
    ∧ fireStep W H sq bid (spawnWave W H rnd baseId s n) = spawnWave W H rnd baseId s n := by
  have h1 : spawnWave W H rnd baseId s n = { s with gameState := GameState.victory } := by
    unfold spawnWave
    rw [h]
  refine ⟨h1, by rw [h1], by rw [h1], ?_, ?_⟩
  · intro delta
    rw [h1]
    unfold tick
    simp
  · rw [h1]
    unfold fireStep
    simp

/-- C4 witness: against a catalog holding only wave 1, `spawnWave 3` is a
pure victory transition leaving the enemy set alone. -/
theorem spawnWave_miss_victory_witness :
    spawnWave 100 100 rnd0 500 c4state 3 = { c4state with gameState := GameState.victory }
    ∧ (spawnWave 100 100 rnd0 500 c4state 3).enemies = c4state.enemies := by
  have h := spawnWave_miss_victory 100 100 sq0 rnd0 500 7 c4state 3 rfl
  exact ⟨h.1, h.2.1⟩

/-- C8: a projectile whose advanced position lies outside the viewport
rectangle on a frame is absent from the projectile set after that frame's
commit, with no exceptions: every bullet surviving `frameStep` has an id
different from it. -/
theorem oob_bullet_absent (W H : ℚ) (sq : ℚ → ℚ) (rnd : Nat → Nat × ℚ) (baseId : Nat)
    (delta : ℚ) (s : State) (b : Bullet)
    (hb : b ∈ movedBullets delta s) (hoob : oobB W H b = true) :
    ∀ b2 ∈ (frameStep W H sq rnd baseId s delta).bullets, b2.id ≠ b.id := by
  rw [frameStep_bullets]
  apply keptBullets_avoid
  apply mem_bulletsToRemove W H delta s b hb
  unfold bulletRemovedB
  rw [hoob, Bool.true_or]

/-- C8 witness: in `c8state` the out-of-bounds bullet is gone after the
frame while the in-bounds one survives. -/
theorem oob_bullet_absent_witness :
    (frameStep 100 100 sq0 rnd0 500 c8state 0).bullets = [c8in]
    ∧ c8in.id ≠ c8out.id := by
  have hbul : (frameStep 100 100 sq0 rnd0 500 c8state 0).bullets = [c8in] := by
    norm_num [frameStep, frameCommit, frameCoreHp, keptBullets, bulletsToRemove,
      bulletRemovedB, oobB, hitB, movedBullets, advanceBullet, steppedEnemies,
      enemiesToRemove, enemyFrame, damageTo, keptEnemies, distSq, bulletSpeed,
      coreRadius, c8state, c8out, c8in, spawnWave, buildEnemies]
  have hb : c8out ∈ movedBullets 0 c8state := by
    norm_num [movedBullets, advanceBullet, c8state, c8out, c8in, bulletSpeed]
  have hne := oob_bullet_absent 100 100 sq0 rnd0 500 0 c8state c8out hb
    (by norm_num [oobB, c8out]) c8in (by rw [hbul]; exact List.mem_cons_self c8in [])
  exact ⟨hbul, hne⟩

/-- C3: the game state can change only out of `playing` (hence only the
transitions playing → gameover and playing → victory are possible); the
fire controller never changes the game state; and in a terminal state
neither a frame tick nor a fire tick mutates anything — no frame is
processed and no projectile is emitted. -/
theorem terminal_frozen (W H : ℚ) (sq : ℚ → ℚ) (rnd : Nat → Nat × ℚ)
    (baseId bid : Nat) (delta : ℚ) (s : State) :
    ((tick W H sq rnd baseId s delta).gameState = s.gameState
      ∨ s.gameState = GameState.playing)
    ∧ (fireStep W H sq bid s).gameState = s.gameState
    ∧ (s.gameState ≠ GameState.playing →
        tick W H sq rnd baseId s delta = s ∧ fireStep W H sq bid s = s) := by
  refine ⟨?_, ?_, ?_⟩
  · by_cases hp : s.gameState = GameState.playing
    · exact Or.inr hp
    · left
      unfold tick
      rw [if_neg hp]
  · unfold fireStep
    split
    · rfl
    · split
      · rfl
      · split
        · rfl
        · rfl
  · intro hnp
    constructor
    · unfold tick
      rw [if_neg hnp]
    · unfold fireStep
      rw [if_pos hnp]

/-- C3 witness: in the terminal state `c3state` (victory, with live
entities) a frame tick and a fire tick both leave the state untouched. -/
theorem terminal_frozen_witness :
    tick 100 100 sq0 rnd0 500 c3state 1 = c3state
    ∧ fireStep 100 100 sq0 9 c3state = c3state := by
  exact (terminal_frozen 100 100 sq0 rnd0 500 9 1 c3state).2.2 (by simp [c3state])

/-- C2: an enemy whose distance to the core is zero never reaches the
movement division: if it survives this frame's damage it is resolved by the
enemy–core collision branch (removed, dealing 10 core damage); in general
the movement branch runs only when the squared distance to the core is at
least `(coreRadius + radius)^2 > 0`, so the divisor distance is never zero
and the per-enemy frame computation is total. -/
theorem zero_distance_guard (W H : ℚ) (sq : ℚ → ℚ) (delta dmg : ℚ) (e : Enemy)
    (hr : 0 ≤ e.radius) :
    (distSq e.x e.y (W / 2) (H / 2) = 0 → 0 < e.hp - dmg →
      enemyFrame W H sq delta dmg e = ({ e with hp := e.hp - dmg }, true, 10))
    ∧ ((enemyFrame W H sq delta dmg e).2.1 = false →
      (coreRadius + e.radius) ^ 2 ≤ distSq e.x e.y (W / 2) (H / 2)
      ∧ distSq e.x e.y (W / 2) (H / 2) ≠ 0) := by
  have hcr : 0 < coreRadius + e.radius := by
    unfold coreRadius
    linarith
  constructor
  · intro h0 hhp
    unfold enemyFrame
    simp only [h0]
    rw [if_neg (not_le.mpr hhp), if_pos ⟨hcr, pow_pos hcr 2⟩]
  · intro hmoved
    simp only [enemyFrame] at hmoved
    split_ifs at hmoved with h1 h2
    have hle : (coreRadius + e.radius) ^ 2 ≤ distSq e.x e.y (W / 2) (H / 2) :=
      le_of_not_lt (fun hlt => h2 ⟨hcr, hlt⟩)
    refine ⟨hle, fun h0 => ?_⟩
    have hpos := pow_pos hcr 2
    rw [h0] at hle
    linarith

/-- C2 witness: the concrete enemy `c2enemy` at the core's exact center is
removed by the core-collision branch with 10 core damage. -/
theorem zero_distance_guard_witness :
    enemyFrame 100 100 sq0 1 0 c2enemy = ({ c2enemy with hp := c2enemy.hp - 0 }, true, 10) := by
  exact (zero_distance_guard 100 100 sq0 1 0 c2enemy (by norm_num [c2enemy])).1
    (by norm_num [distSq, c2enemy]) (by norm_num [c2enemy])

/-- C5: the core's hit points never increase — the frame's new core hp is
the old value minus 10 per enemy reaching the core (so `≤` the old value),
and the fire controller leaves it alone; and on a frame where the new core
hp is ≤ 0 the state becomes gameover, overriding everything else: the wave
number is unchanged and the enemy set is the committed (filtered) set, not
a fresh spawn, even though it may be empty. -/
theorem core_hp_monotone (W H : ℚ) (sq : ℚ → ℚ) (rnd : Nat → Nat × ℚ)
    (baseId bid : Nat) (delta : ℚ) (s : State) :
    (∃ k : ℕ, frameCoreHp W H sq delta s = s.coreHp - 10 * k)
    ∧ (tick W H sq rnd baseId s delta).coreHp ≤ s.coreHp
    ∧ (fireStep W H sq bid s).coreHp = s.coreHp
    ∧ (s.gameState = GameState.playing → frameCoreHp W H sq delta s ≤ 0 →
        (tick W H sq rnd baseId s delta).gameState = GameState.gameover
        ∧ (tick W H sq rnd baseId s delta).currentWave = s.currentWave
        ∧ (tick W H sq rnd baseId s delta).enemies = keptEnemies W H sq delta s) := by
  have hsum : ∃ k : ℕ, ((steppedEnemies W H sq delta s).map (fun p => p.2.2)).sum = 10 * k := by
    apply sum_of_zero_or_ten
    intro x hx
    obtain ⟨p, hp, hpx⟩ := List.mem_map.mp hx
    obtain ⟨e, he, hep⟩ := List.mem_map.mp hp
    rw [← hpx, ← hep]
    exact enemyFrame_coreDmg_cases W H sq delta _ e
  have hk : ∃ k : ℕ, frameCoreHp W H sq delta s = s.coreHp - 10 * k := by
    obtain ⟨k, hks⟩ := hsum
    exact ⟨k, by rw [frameCoreHp, hks]⟩
  have hle : frameCoreHp W H sq delta s ≤ s.coreHp := by
    obtain ⟨k, hks⟩ := hk
    rw [hks]
    have hnn : (0 : ℚ) ≤ 10 * k := by positivity
    linarith
  refine ⟨hk, ?_, ?_, ?_⟩
  · unfold tick
    split
    · rw [frameStep_coreHp]
      exact hle
    · exact le_refl _
  · unfold fireStep
    split
    · rfl
    · split
      · rfl
      · split
        · rfl
        · rfl
  · intro hplay hdep
    have ht : tick W H sq rnd baseId s delta
        = { frameCommit W H sq delta s with gameState := GameState.gameover } := by
      unfold tick
      rw [if_pos hplay]
      unfold frameStep
      rw [if_pos hdep]
    rw [ht]
    exact ⟨rfl, rfl, rfl⟩

/-- C5 witness: with core hp 10 and one enemy reaching the core, the frame
depletes the core and ends in gameover without touching the wave number. -/
theorem core_hp_monotone_witness :
    (tick 100 100 sq0 rnd0 500 c5state 1).gameState = GameState.gameover
    ∧ (tick 100 100 sq0 rnd0 500 c5state 1).currentWave = c5state.currentWave
    ∧ (tick 100 100 sq0 rnd0 500 c5state 1).coreHp ≤ c5state.coreHp := by
  have hdep : frameCoreHp 100 100 sq0 1 c5state ≤ 0 := by
    norm_num [frameCoreHp, steppedEnemies, enemyFrame, damageTo, movedBullets,
      advanceBullet, hitB, distSq, bulletSpeed, coreRadius, c5state, c5enemy]
  have h := core_hp_monotone 100 100 sq0 rnd0 500 9 1 c5state
  exact ⟨(h.2.2.2 rfl hdep).1, (h.2.2.2 rfl hdep).2.1, h.2.1⟩

/-- C9: on a playing frame where the post-removal enemy set is empty, the
core survives, and the catalog is loaded, the frame invokes the wave
director with wave number exactly `currentWave + 1`; if that wave exists
in the catalog the committed current wave is exactly one higher. -/
theorem wave_advance_by_one (W H : ℚ) (sq : ℚ → ℚ) (rnd : Nat → Nat × ℚ) (baseId : Nat)
    (delta : ℚ) (s : State)
    (hplay : s.gameState = GameState.playing)
    (hempty : keptEnemies W H sq delta s = [])
    (hcore : 0 < frameCoreHp W H sq delta s)
    (hwaves : 0 < s.waves.length) :
    tick W H sq rnd baseId s delta
      = spawnWave W H rnd baseId (frameCommit W H sq delta s) (s.currentWave + 1)
    ∧ (∀ wd, s.waves.find? (fun w => w.wave == s.currentWave + 1) = some wd →
        (tick W H sq rnd baseId s delta).currentWave = s.currentWave + 1) := by
  have hstep : tick W H sq rnd baseId s delta
      = spawnWave W H rnd baseId (frameCommit W H sq delta s) (s.currentWave + 1) := by
    unfold tick
    rw [if_pos hplay]
    unfold frameStep
    rw [if_neg (not_le.mpr hcore), if_pos ⟨by rw [hempty]; rfl, hwaves⟩]
  refine ⟨hstep, fun wd hwd => ?_⟩
  rw [hstep]
  unfold spawnWave
  have hwv : (frameCommit W H sq delta s).waves = s.waves := rfl
  rw [hwv, hwd]

/-- C9 witness: in `c9state` (playing, wave 1 of a 2-wave catalog, no
enemies) the frame advances the current wave to exactly 2. -/
theorem wave_advance_by_one_witness :
    (tick 100 100 sq0 rnd0 500 c9state 1).currentWave = c9state.currentWave + 1 := by
  have h := wave_advance_by_one 100 100 sq0 rnd0 500 1 c9state rfl rfl
    (by norm_num [frameCoreHp, steppedEnemies, c9state]) (by norm_num [c9state])
  exact h.2 ⟨2, [⟨"fast", 1⟩]⟩ rfl

/-- C1: with distinct enemy ids, the damage accumulated against an enemy in
a frame is exactly 10 per overlapping advanced projectile (additively, no
cap); every projectile overlapping it is absent from the committed
projectile set (the removal set holds each id at most once, yet the
projectile damages every enemy it overlaps); and if the accumulated damage
brings the enemy's hp to 0 or below, the enemy is absent from the committed
enemy set and contributes no core damage that frame, even if it also
overlaps the core. -/
theorem multi_hit_accumulation (W H : ℚ) (sq : ℚ → ℚ) (rnd : Nat → Nat × ℚ) (baseId : Nat)
    (delta : ℚ) (s : State) (e : Enemy)
    (hnd : (s.enemies.map Enemy.id).Nodup) (he : e ∈ s.enemies) :
    damageTo (movedBullets delta s) s.enemies e.id
      = 10 * (hitCount (movedBullets delta s) e : ℚ)
    ∧ (∀ b ∈ movedBullets delta s, hitB b e = true →
        ∀ b2 ∈ (frameStep W H sq rnd baseId s delta).bullets, b2.id ≠ b.id)
    ∧ (e.hp - 10 * (hitCount (movedBullets delta s) e : ℚ) ≤ 0 →
        (∀ e2 ∈ keptEnemies W H sq delta s, e2.id ≠ e.id)
        ∧ (enemyFrame W H sq delta (damageTo (movedBullets delta s) s.enemies e.id) e).2.2
            = 0) := by
  have hdmg := damageTo_eq_hitCount (movedBullets delta s) s.enemies e hnd he
  refine ⟨hdmg, ?_, ?_⟩
  · intro b hb hhit b2 hb2
    rw [frameStep_bullets] at hb2
    have hmem : b.id ∈ bulletsToRemove W H delta s := by
      apply mem_bulletsToRemove W H delta s b hb
      unfold bulletRemovedB
      have hany : s.enemies.any (fun x => hitB b x) = true :=
        List.any_eq_true.mpr ⟨e, he, hhit⟩
      rw [hany, Bool.or_true]
    exact keptBullets_avoid W H delta s b.id hmem b2 hb2
  · intro hdead0
    have hdead : e.hp - damageTo (movedBullets delta s) s.enemies e.id ≤ 0 := by
      rw [hdmg]
      exact hdead0
    have heq := enemyFrame_dead W H sq delta
      (damageTo (movedBullets delta s) s.enemies e.id) e hdead
    constructor
    · apply keptEnemies_avoid
      apply mem_enemiesToRemove W H sq delta s e he
      rw [heq]
    · rw [heq]

/-- C1 witness: in `c1state` the enemy overlapped by 3 bullets takes
3 × 10 = 30 damage, dies, and contributes no core damage even though it is
also within core-collision range. -/
theorem multi_hit_accumulation_witness :
    hitCount (movedBullets 0 c1state) c1enemy = 3
    ∧ damageTo (movedBullets 0 c1state) c1state.enemies c1enemy.id
        = 10 * (hitCount (movedBullets 0 c1state) c1enemy : ℚ)
    ∧ (enemyFrame 100 100 sq0 0 (damageTo (movedBullets 0 c1state) c1state.enemies c1enemy.id)
        c1enemy).2.2 = 0 := by
  have hcount : hitCount (movedBullets 0 c1state) c1enemy = 3 := by
    norm_num [hitCount, movedBullets, advanceBullet, hitB, distSq, bulletSpeed,
      c1state, c1bullet, c1enemy, List.filter]
  have h := multi_hit_accumulation 100 100 sq0 rnd0 500 0 c1state c1enemy
    (by simp [c1state, c1enemy]) (by simp [c1state])
  refine ⟨hcount, h.1, (h.2.2 ?_).2⟩
  rw [hcount]
  norm_num [c1enemy]

/-- C6: when `spawnWave n` finds wave `n` in the catalog it replaces the
enemy set with exactly sum-of-counts freshly built enemies and sets the
current wave to `n`; every spawned enemy belongs to one of the wave's
groups, carrying that kind's stat-table hp and radius (a kind missing from
the table receives the default normal profile), and sits on one of the four
viewport edges offset outward by its radius, strictly outside the visible
bounds. -/
theorem spawnWave_hit_spec (W H : ℚ) (rnd : Nat → Nat × ℚ) (baseId : Nat)
    (s : State) (n : Nat) (wd : WaveData)
    (h : s.waves.find? (fun w => w.wave == n) = some wd) :
    (spawnWave W H rnd baseId s n).currentWave = n
    ∧ (spawnWave W H rnd baseId s n).enemies = buildEnemies W H rnd baseId wd.enemies 0
    ∧ (spawnWave W H rnd baseId s n).enemies.length = (wd.enemies.map EnemyData.count).sum
    ∧ (∀ t : String, ENEMY_STATS t = none →
        statsFor t = { hp := 10, radius := 15, speed := 50 })
    ∧ ∀ e ∈ (spawnWave W H rnd baseId s n).enemies, ∃ g ∈ wd.enemies,
        e.type = g.type ∧ e.hp = (statsFor g.type).hp ∧ e.radius = (statsFor g.type).radius
        ∧ (e.y = -e.radius ∨ e.x = W + e.radius ∨ e.y = H + e.radius ∨ e.x = -e.radius)
        ∧ (e.x < 0 ∨ e.x > W ∨ e.y < 0 ∨ e.y > H) := by
  have hsp : spawnWave W H rnd baseId s n
      = { s with enemies := buildEnemies W H rnd baseId wd.enemies 0, currentWave := n } := by
    unfold spawnWave
    rw [h]
  refine ⟨by rw [hsp], by rw [hsp], ?_, statsFor_of_missing, ?_⟩
  · rw [hsp]
    exact buildEnemies_length W H rnd baseId wd.enemies 0
  · intro e he
    rw [hsp] at he
    obtain ⟨g, hg, j, hje⟩ := buildEnemies_mem W H rnd baseId wd.enemies 0 e he
    obtain ⟨h1, h2, h3, h4, h5⟩ := mkEnemy_spec W H rnd baseId j g.type
    rw [← h3] at h4
    rw [← hje] at h1 h2 h3 h4 h5
    exact ⟨g, hg, h1, h2, h3, h4, h5⟩

/-- C6 witness: spawning `c6wave` (2 fast + 1 unknown-kind enemy) yields
exactly 3 enemies and sets the current wave to 2; the unknown kind falls
back to the default profile. -/
theorem spawnWave_hit_spec_witness :
    (spawnWave 100 100 rnd0 500 c6state 2).currentWave = 2
    ∧ (spawnWave 100 100 rnd0 500 c6state 2).enemies.length = 3
    ∧ statsFor "boss" = { hp := 10, radius := 15, speed := 50 } := by
  have h := spawnWave_hit_spec 100 100 rnd0 500 c6state 2 c6wave rfl
  refine ⟨h.1, ?_, h.2.2.2.1 "boss" rfl⟩
  rw [h.2.2.1]
  rfl

/-- C7: the fire controller leaves an empty-enemy state untouched; when the
targeting scan returns a nearest enemy, that enemy is a live enemy of
minimal euclidean distance to the core, the first such in iteration order;
exactly one bullet is appended, originating at the core, and its direction
is the unit vector toward the target (its components squared sum to 1 when
the oracle returns the true square root); the enemy set is not mutated. -/
theorem fire_at_nearest (W H : ℚ) (sq : ℚ → ℚ) (bid : Nat) (s : State) (tgt : Enemy)
    (hplay : s.gameState = GameState.playing)
    (htgt : nearestEnemy (W / 2) (H / 2) s.enemies = some tgt) :
    (∀ s2 : State, s2.enemies = [] → fireStep W H sq bid s2 = s2)
    ∧ tgt ∈ s.enemies
    ∧ (∀ e2 ∈ s.enemies,
        enemyDistSq (W / 2) (H / 2) tgt ≤ enemyDistSq (W / 2) (H / 2) e2)
    ∧ (∃ l1 l2, s.enemies = l1 ++ tgt :: l2 ∧
        ∀ e2 ∈ l1, enemyDistSq (W / 2) (H / 2) tgt < enemyDistSq (W / 2) (H / 2) e2)
    ∧ (fireStep W H sq bid s).enemies = s.enemies
    ∧ (fireStep W H sq bid s).bullets = s.bullets ++ [fireBullet W H sq bid tgt]
    ∧ (fireBullet W H sq bid tgt).x = W / 2 ∧ (fireBullet W H sq bid tgt).y = H / 2
    ∧ (∀ d : ℚ, 0 < d → d * d = enemyDistSq (W / 2) (H / 2) tgt →
        sq (enemyDistSq (W / 2) (H / 2) tgt) = d →
        (fireBullet W H sq bid tgt).dx ^ 2 + (fireBullet W H sq bid tgt).dy ^ 2 = 1) := by
  obtain ⟨hmem, hmin, hfirst⟩ := nearestEnemy_spec (W / 2) (H / 2) s.enemies tgt htgt
  have hne : s.enemies ≠ [] := by
    intro h0
    rw [h0] at htgt
    exact Option.noConfusion htgt
  have hfs : fireStep W H sq bid s
      = { s with bullets := s.bullets ++ [fireBullet W H sq bid tgt] } := by
    unfold fireStep
    rw [if_neg (fun hc => hc hplay), if_neg (fun hl => hne (List.length_eq_zero.mp hl)), htgt]
  refine ⟨?_, hmem, hmin, hfirst, by rw [hfs], by rw [hfs], rfl, rfl, ?_⟩
  · intro s2 h2
    unfold fireStep
    split
    · rfl
    · rw [if_pos (by rw [h2]; rfl)]
  · intro d hd hdd hsq
    have hd0 : d ≠ 0 := ne_of_gt hd
    have hsum : (tgt.x - W / 2) ^ 2 + (tgt.y - H / 2) ^ 2 = d * d := by
      rw [hdd]
      rfl
    unfold fireBullet
    dsimp only
    rw [hsq, div_pow, div_pow, div_add_div_same, hsum, ← pow_two]
    exact div_self (pow_ne_zero 2 hd0)

/-- C7 witness: firing at `c7enemy` (squared distance 25, true root 5)
appends exactly one bullet from the core whose direction components are
(3/5, 4/5), a unit vector; the enemy set is untouched. -/
theorem fire_at_nearest_witness :
    (fireStep 100 100 c7sq 7 c7state).bullets
      = c7state.bullets ++ [fireBullet 100 100 c7sq 7 c7enemy]
    ∧ (fireStep 100 100 c7sq 7 c7state).enemies = c7state.enemies
    ∧ (fireBullet 100 100 c7sq 7 c7enemy).dx ^ 2 + (fireBullet 100 100 c7sq 7 c7enemy).dy ^ 2
        = 1 := by
  have h := fire_at_nearest 100 100 c7sq 7 c7state c7enemy rfl rfl
  refine ⟨h.2.2.2.2.2.1, h.2.2.2.2.1, ?_⟩
  apply h.2.2.2.2.2.2.2.2 5
  · norm_num
  · norm_num [enemyDistSq, distSq, c7enemy]
  · norm_num [enemyDistSq, distSq, c7enemy, c7sq]

/-- C10: a projectile marked for removal because its advanced position is
out of bounds still takes part in collision that same frame: in the
concrete state `c10state` the advanced bullet is out of bounds AND overlaps
the enemy, and after the frame the bullet is gone while the enemy lost the
full 10 hit points. -/
theorem oob_bullet_still_damages :
    oobB 100 100 (advanceBullet 0 c10bullet) = true
    ∧ hitB (advanceBullet 0 c10bullet) c10enemy = true
    ∧ damageTo (movedBullets 0 c10state) c10state.enemies c10enemy.id = 10
    ∧ (frameStep 100 100 c10sq rnd0 900 c10state 0).bullets = []
    ∧ (frameStep 100 100 c10sq rnd0 900 c10state 0).enemies
        = [⟨2, 95, 50, 15, "tank", 15⟩] := by
  refine ⟨?_, ?_, ?_, ?_, ?_⟩
  · norm_num [oobB, advanceBullet, bulletSpeed, c10bullet]
  · norm_num [hitB, advanceBullet, distSq, bulletSpeed, c10bullet, c10enemy]
  · norm_num [damageTo, movedBullets, advanceBullet, hitB, distSq, bulletSpeed,
      c10state, c10bullet, c10enemy, List.filter]
  · norm_num [frameStep, frameCommit, frameCoreHp, keptBullets, bulletsToRemove,
      bulletRemovedB, oobB, hitB, movedBullets, advanceBullet, steppedEnemies,
      enemiesToRemove, enemyFrame, damageTo, keptEnemies, distSq, bulletSpeed,
      coreRadius, statsFor, ENEMY_STATS, c10state, c10bullet, c10enemy, c10sq]
  · norm_num [frameStep, frameCommit, frameCoreHp, keptBullets, bulletsToRemove,
      bulletRemovedB, oobB, hitB, movedBullets, advanceBullet, steppedEnemies,
      enemiesToRemove, enemyFrame, damageTo, keptEnemies, distSq, bulletSpeed,
      coreRadius, statsFor, ENEMY_STATS, c10state, c10bullet, c10enemy, c10sq]

end TD
